import Mathlib

/-!
Verification of the FBPT (Firmware Basic Performance Table) locator and
record decoder from `cmds/contrib/fbptcat` and `pkg/acpi/fbpt`.

The Go code is shallowly embedded: the seekable read-only byte source
(`/dev/mem` in the program) becomes an explicit `ByteStream` (a byte list
plus a cursor), `io.ReadFull` becomes `readFull` (fails when fewer bytes
are available than requested), and the machine-integer arithmetic of the
source (`uint8` record lengths, `uint32` table lengths and byte counters)
is carried out on `Nat` with explicit reductions modulo 2^8 / 2^32 exactly
where the Go operations wrap.
-/

namespace Fbpt

/-- A seekable, read-only byte source: the raw data and a read cursor.
Bytes are modelled as natural numbers; genuine inputs have every entry
below 256. -/
structure ByteStream where
  data : List Nat
  pos : Nat
deriving DecidableEq, Repr

/-- Errors surfaced by the scan.  `shortRead` models the `io.ReadFull`
failure (fewer bytes available than requested), `signatureMismatch`
models the signature-check failure and carries the 4 bytes actually
observed (the Go error message embeds them), and `fuelExhausted` is the
marker returned when the loop fuel runs out — the termination theorem
shows it never escapes `FindAllFBPTRecords`. -/
inductive FbptError where
  | shortRead
  | signatureMismatch (got : List Nat)
  | fuelExhausted
deriving DecidableEq, Repr

/-- Model of `io.ReadFull`: return exactly `n` bytes from the cursor and
advance it, or fail when the source holds fewer than `n` bytes there. -/
def readFull (s : ByteStream) (n : Nat) : Except FbptError (List Nat × ByteStream) :=
  if s.pos + n ≤ s.data.length then
    .ok ((s.data.drop s.pos).take n, ⟨s.data, s.pos + n⟩)
  else
    .error .shortRead

/-- Little-endian interpretation of a byte list, as used by
`binary.LittleEndian.Uint16/Uint32/Uint64` on slices of the matching
width. -/
def leNat : List Nat → Nat
  | [] => 0
  | b :: bs => b + 256 * leNat bs

/-- Little-endian encoding of `n` into `k` bytes (the inverse direction of
`leNat`, used to build synthetic tables). -/
def toLEBytes : Nat → Nat → List Nat
  | 0, _ => []
  | k + 1, n => n % 256 :: toLEBytes k (n / 256)

/-- The ASCII bytes of the `FBPTStructureSig` literal "FBPT". -/
def fbptSigBytes : List Nat := [70, 66, 80, 84]

/-- The dynamic-string event record type code
(`FPDT_DYNAMIC_STRING_EVENT_RECORD_IDENTIFIER`). -/
def FPDT_DYNAMIC_STRING_EVENT_RECORD_IDENTIFIER : Nat := 0x1011

/-- `maxNumberOfFBPTPerfRecords` from the source: decode cap of the scan. -/
def maxNumberOfFBPTPerfRecords : Nat := 2000

/-- The closed static `eventTypeMap` of the source, as an association
list from hook-type code to label. -/
def eventTypeAList : List (Nat × String) :=
  [(0x01, "MODULE_START_ID"),
   (0x02, "MODULE_END_ID"),
   (0x03, "MODULE_LOADIMAGE_START_ID"),
   (0x04, "MODULE_LOADIMAGE_END_ID"),
   (0x05, "MODULE_DB_START_ID"),
   (0x06, "MODULE_DB_END_ID"),
   (0x07, "MODULE_DB_SUPPORT_START_ID"),
   (0x08, "MODULE_DB_SUPPORT_END_ID"),
   (0x09, "MODULE_DB_STOP_START_ID"),
   (0x0A, "MODULE_DB_STOP_END_ID"),
   (0x10, "PERF_EVENTSIGNAL_START_ID"),
   (0x11, "PERF_EVENTSIGNAL_END_ID"),
   (0x20, "PERF_CALLBACK_START_ID"),
   (0x21, "PERF_CALLBACK_END_ID"),
   (0x30, "PERF_FUNCTION_START_ID"),
   (0x31, "PERF_FUNCTION_END_ID"),
   (0x40, "PERF_INMODULE_START_ID"),
   (0x41, "PERF_INMODULE_END_ID"),
   (0x50, "PERF_CROSSMODULE_START_ID"),
   (0x51, "PERF_CROSSMODULE_END_ID")]

/-- Go map indexing `eventTypeMap[code]`: the label for a mapped code, and
the zero value (the empty string) for an unmapped one. -/
def eventTypeMap (code : Nat) : String :=
  (eventTypeAList.lookup code).getD ""

/-- `MEASUREMENT_RECORD` from the source.  The GUID is kept as its 16 raw
bytes (`uefivars.MixedGUID` is a 16-byte array); the description is kept
as raw bytes since Go strings are byte sequences. -/
structure MEASUREMENT_RECORD where
  HookType : String
  ProcessorIdentifier : Nat
  Timestamp : Nat
  GUID : List Nat
  Description : List Nat
deriving DecidableEq, Repr

/-- The Go zero value of `MEASUREMENT_RECORD`, as produced by
`make([]MEASUREMENT_RECORD, n)`. -/
def zeroMeasurementRecord : MEASUREMENT_RECORD :=
  ⟨"", 0, 0, List.replicate 16 0, []⟩

/-- Modelled from the spec: the canonical mixed-endian GUID text form of
`uefivars.MixedGUID.String` (the `uefivars` package is not part of the
sources under verification).  Per the spec, the three leading fields are
byte-swapped to little-endian groups while the trailing 8 bytes keep
their stored order. -/
def hexNibble (n : Nat) : String :=
  if n = 0 then "0" else if n = 1 then "1" else if n = 2 then "2"
  else if n = 3 then "3" else if n = 4 then "4" else if n = 5 then "5"
  else if n = 6 then "6" else if n = 7 then "7" else if n = 8 then "8"
  else if n = 9 then "9" else if n = 10 then "a" else if n = 11 then "b"
  else if n = 12 then "c" else if n = 13 then "d" else if n = 14 then "e"
  else "f"

/-- Modelled from the spec: hexadecimal rendering of one byte. -/
def hexByte (b : Nat) : String :=
  hexNibble (b / 16 % 16) ++ hexNibble (b % 16)

/-- Modelled from the spec: mixed-endian GUID text — first three groups
byte-reversed (little-endian display), last 8 bytes in stored order. -/
def mixedGUIDString (g : List Nat) : String :=
  String.join (((g.take 4).reverse).map hexByte) ++ "-" ++
  String.join ((((g.drop 4).take 2).reverse).map hexByte) ++ "-" ++
  String.join ((((g.drop 6).take 2).reverse).map hexByte) ++ "-" ++
  String.join (((g.drop 8).take 2).map hexByte) ++ "-" ++
  String.join (((g.drop 10).take 6).map hexByte)

/-- `verifyFBPTSignature` from the source: seek to the table base, read
and check the 4 signature bytes (the mismatch error carries the observed
bytes), then read the 4-byte little-endian table length. -/
def verifyFBPTSignature (s : ByteStream) (fbptAddr : Nat) :
    Except FbptError (Nat × ByteStream) :=
  match readFull ⟨s.data, fbptAddr⟩ 4 with
  | .error e => .error e
  | .ok (sig, s1) =>
    if sig = fbptSigBytes then
      match readFull s1 4 with
      | .error e => .error e
      | .ok (lenBytes, s2) => .ok (leNat lenBytes, s2)
    else
      .error (.signatureMismatch sig)

/-- Modelled from the spec: `fpdt.ReadFPDTRecordHeader` (the `fpdt`
package is not part of the sources under verification).  Per spec §4.3 it
reads 2 bytes (type, little-endian), 1 byte (length) and 1 byte
(revision) from the cursor with read-exact semantics and returns the
triple, performing no semantic validation. -/
def ReadFPDTRecordHeader (s : ByteStream) :
    Except FbptError ((Nat × Nat × Nat) × ByteStream) :=
  match readFull s 2 with
  | .error e => .error e
  | .ok (tyBytes, s1) =>
    match readFull s1 1 with
    | .error e => .error e
    | .ok (lenBytes, s2) =>
      match readFull s2 1 with
      | .error e => .error e
      | .ok (revBytes, s3) =>
        .ok ((leNat tyBytes, leNat lenBytes, leNat revBytes), s3)

/-- `readFirmwarePerformanceDataTableDynamicRecord` from the source: read
hook type (2 bytes LE), processor identifier (4 bytes LE), timestamp
(8 bytes LE), GUID (16 bytes), then `recordLength - 34` description
bytes, where the subtraction is the wrapping `uint8` subtraction of the
Go code (`make([]byte, recordLength-34)`), i.e. `(recordLength + 222) % 256`. -/
def readFirmwarePerformanceDataTableDynamicRecord (s : ByteStream)
    (recordLength : Nat) : Except FbptError (MEASUREMENT_RECORD × ByteStream) :=
  match readFull s 2 with
  | .error e => .error e
  | .ok (hookBytes, s1) =>
    match readFull s1 4 with
    | .error e => .error e
    | .ok (procBytes, s2) =>
      match readFull s2 8 with
      | .error e => .error e
      | .ok (tsBytes, s3) =>
        match readFull s3 16 with
        | .error e => .error e
        | .ok (guidBytes, s4) =>
          match readFull s4 ((recordLength + 222) % 256) with
          | .error e => .error e
          | .ok (descrBytes, s5) =>
            .ok (⟨eventTypeMap (leNat hookBytes), leNat procBytes,
                  leNat tsBytes, guidBytes, descrBytes⟩, s5)

/-- The Go result triple `(int, []MEASUREMENT_RECORD, error)`:
`records = none` models a nil slice, `error = none` a nil error. -/
structure ScanResult where
  count : Nat
  records : Option (List MEASUREMENT_RECORD)
  error : Option FbptError
deriving DecidableEq, Repr

/-- The scan loop outcome together with the final stream and the final
`tableBytesRead` counter (loop-local state of the Go code, exposed here
so that byte-consumption properties can be stated). -/
structure LoopOut where
  result : ScanResult
  stream : ByteStream
  bytesRead : Nat
deriving DecidableEq, Repr

/-- The loop bound `tablelength - EFI_ACPI_5_0_FBPT_HEADER_SIZE` of the
source, computed in wrapping `uint32` arithmetic. -/
def tableBodyLen (tablelength : Nat) : Nat :=
  (tablelength + 2 ^ 32 - 8) % 2 ^ 32

/-- The scan loop of `FindAllFBPTRecords`: while
`tableBytesRead < tablelength - 8` (uint32 arithmetic) and
`index < maxNumberOfFBPTPerfRecords`, read a record header; decode a
dynamic-string record into slot `index` when the type matches, otherwise
seek forward by `length - 4` (wrapping uint8 arithmetic); in either case
add the declared length to `tableBytesRead` (uint32 wrap).  On any
read failure return the error with the current count and a nil record
slice, exactly as the source does.  `fuel` makes the recursion
structural; the termination theorem shows the canonical fuel is never
exhausted. -/
def scanLoop (tablelength fuel : Nat) (s : ByteStream) (index tableBytesRead : Nat)
    (recs : List MEASUREMENT_RECORD) : LoopOut :=
  match fuel with
  | 0 => ⟨⟨index, none, some .fuelExhausted⟩, s, tableBytesRead⟩
  | fuel + 1 =>
    if tableBytesRead < tableBodyLen tablelength ∧ index < maxNumberOfFBPTPerfRecords then
      match ReadFPDTRecordHeader s with
      | .error e => ⟨⟨index, none, some e⟩, s, tableBytesRead⟩
      | .ok ((ty, len, _rev), s1) =>
        if ty = FPDT_DYNAMIC_STRING_EVENT_RECORD_IDENTIFIER then
          match readFirmwarePerformanceDataTableDynamicRecord s1 len with
          | .error e => ⟨⟨index, none, some e⟩, s1, tableBytesRead⟩
          | .ok (rec, s2) =>
            scanLoop tablelength fuel s2 (index + 1)
              ((tableBytesRead + len) % 2 ^ 32) (recs.set index rec)
        else
          scanLoop tablelength fuel ⟨s1.data, s1.pos + (len + 252) % 256⟩ index
            ((tableBytesRead + len) % 2 ^ 32) recs
    else
      ⟨⟨index, some recs, none⟩, s, tableBytesRead⟩

/-- `FindAllFBPTRecords` with explicit fuel: verify the signature at the
base address, then run the scan loop from a zero-initialised 2000-entry
record slice. -/
def FindAllFBPTRecordsFullFuel (data : List Nat) (FBPTAddr fuel : Nat) : LoopOut :=
  match verifyFBPTSignature ⟨data, 0⟩ FBPTAddr with
  | .error e => ⟨⟨0, none, some e⟩, ⟨data, 0⟩, 0⟩
  | .ok (tablelength, s) =>
    scanLoop tablelength fuel s 0 0
      (List.replicate maxNumberOfFBPTPerfRecords zeroMeasurementRecord)

/-- `FindAllFBPTRecords` with its loop-local state exposed, at the
canonical fuel `data.length + 6` (proved sufficient below). -/
def FindAllFBPTRecordsFull (data : List Nat) (FBPTAddr : Nat) : LoopOut :=
  FindAllFBPTRecordsFullFuel data FBPTAddr (data.length + 6)

/-- `FindAllFBPTRecords` from the source: the observable result triple. -/
def FindAllFBPTRecords (data : List Nat) (FBPTAddr : Nat) : ScanResult :=
  (FindAllFBPTRecordsFull data FBPTAddr).result

/-- Fuel sufficient to run the scan loop to completion from stream `s`:
every continuing iteration advances the cursor by at least 4 and requires
at least 4 readable bytes, so the iteration count is bounded by the
remaining length divided by 4. -/
def loopFuelBound (s : ByteStream) : Nat := (s.data.length + 4 - s.pos) / 4 + 1

/-! ### Synthetic well-formed tables -/

/-- A record of a synthetic table: either a dynamic-string event record
(type 0x1011) with the given field values, or a record of another type
that the scan skips. -/
inductive RecSpec where
  | dyn (hook procId ts : Nat) (guid descr : List Nat)
  | other (ty len : Nat) (body : List Nat)
deriving DecidableEq, Repr

/-- The declared (header) length of a record: 34 plus the description
length for a dynamic-string record, the declared length otherwise. -/
def RecSpec.len : RecSpec → Nat
  | .dyn _ _ _ _ d => 34 + d.length
  | .other _ l _ => l

/-- Well-formedness of a synthetic record: field values fit their binary
widths, the GUID is 16 bytes, the declared length fits a `uint8` and is
at least the record's own overhead, and a skipped record's body length
matches its declared length. -/
def RecSpec.WF : RecSpec → Prop
  | .dyn h p t g d =>
    h < 2 ^ 16 ∧ p < 2 ^ 32 ∧ t < 2 ^ 64 ∧ g.length = 16 ∧ d.length ≤ 221
  | .other ty l body =>
    ty < 2 ^ 16 ∧ ty ≠ FPDT_DYNAMIC_STRING_EVENT_RECORD_IDENTIFIER ∧
      4 ≤ l ∧ l ≤ 255 ∧ body.length = l - 4

instance (r : RecSpec) : Decidable r.WF := by
  cases r <;> (dsimp [RecSpec.WF]; infer_instance)

/-- The binary encoding of one record, per the FBPT layout: a 4-byte
header (type little-endian, declared length, revision byte 1), then for a
dynamic-string record the hook-type code, processor identifier,
timestamp, GUID and description. -/
def RecSpec.encode : RecSpec → List Nat
  | .dyn h p t g d =>
    [17, 16, 34 + d.length, 1] ++
      (toLEBytes 2 h ++ (toLEBytes 4 p ++ (toLEBytes 8 t ++ (g ++ d))))
  | .other ty l body => [ty % 256, ty / 256 % 256, l, 1] ++ body

/-- The concatenated encoding of a record list. -/
def encodeRecs : List RecSpec → List Nat
  | [] => []
  | r :: rs => r.encode ++ encodeRecs rs

/-- Total declared length of a record list. -/
def sumLens : List RecSpec → Nat
  | [] => 0
  | r :: rs => r.len + sumLens rs

/-- The measurement records that decoding the dynamic-string records of a
record list produces, in table order. -/
def dynRecs : List RecSpec → List MEASUREMENT_RECORD
  | [] => []
  | .dyn h p t g d :: rs => ⟨eventTypeMap h, p, t, g, d⟩ :: dynRecs rs
  | .other _ _ _ :: rs => dynRecs rs

/-- Number of dynamic-string records in a record list. -/
def dynCount : List RecSpec → Nat
  | [] => 0
  | .dyn _ _ _ _ _ :: rs => dynCount rs + 1
  | .other _ _ _ :: rs => dynCount rs

/-- Write a list of records into consecutive slots of `l` starting at
index `i` (the effect of the loop body on the result slice). -/
def setFrom : List MEASUREMENT_RECORD → Nat → List MEASUREMENT_RECORD → List MEASUREMENT_RECORD
  | l, _, [] => l
  | l, i, r :: rs => setFrom (l.set i r) (i + 1) rs

def c1Data : List Nat :=
  [70, 66, 80, 84, 46, 0, 0, 0, 17, 16, 34, 1, 1, 0, 0, 0, 0, 0] ++
    List.replicate 8 0 ++ List.replicate 16 0

set_option maxRecDepth 40000

def c3Data : List Nat :=
  [70, 66, 80, 84, 12, 0, 0, 0, 17, 16, 4, 0, 1, 0, 0, 0, 0, 0] ++
    List.replicate 8 0 ++ List.replicate 16 0 ++ List.replicate 226 65

/-- Encoding direction of the round-trip property (stated by the spec,
not present in the code): serialise the fields of a measurement record
into the dynamic-string-record body layout — 2-byte little-endian hook
type, 4-byte little-endian processor identifier, 8-byte little-endian
timestamp, 16 GUID bytes, then the description bytes.  The declared
record length for this body is 34 plus the description length. -/
def encodeDynamicStringRecordBody (hook procId ts : Nat) (guid descr : List Nat) : List Nat :=
  toLEBytes 2 hook ++ (toLEBytes 4 procId ++ (toLEBytes 8 ts ++ (guid ++ descr)))

def c2Specs : List RecSpec :=
  List.replicate 2001 (RecSpec.dyn 1 0 0 (List.replicate 16 0) [65])

def c2Data : List Nat :=
  fbptSigBytes ++ (toLEBytes 4 (8 + sumLens c2Specs) ++ encodeRecs c2Specs)

def w2Specs : List RecSpec :=
  [RecSpec.dyn 1 2 3 (List.replicate 16 4) [72, 105], RecSpec.other 7 10 [9, 9, 9, 9, 9, 9]]

def c4Specs : List RecSpec :=
  List.replicate 2001 (RecSpec.dyn 1 0 0 (List.replicate 16 0) [])

/-! ### Byte-stream reading lemmas -/

theorem readFull_ok (s : ByteStream) (n : Nat) (h : s.pos + n ≤ s.data.length) :
    readFull s n = .ok ((s.data.drop s.pos).take n, ⟨s.data, s.pos + n⟩) := by
  simp [readFull, h]

theorem readFull_err (s : ByteStream) (n : Nat) (h : s.data.length < s.pos + n) :
    readFull s n = .error .shortRead := by
  simp [readFull]
  omega

theorem data_drop (pre X : List Nat) (k : Nat) :
    (pre ++ X).drop (pre.length + k) = X.drop k := by
  rw [← List.drop_drop, List.drop_left]

theorem readFull_at (pre X : List Nat) (k n : Nat) (h : k + n ≤ X.length) :
    readFull ⟨pre ++ X, pre.length + k⟩ n =
      .ok ((X.drop k).take n, ⟨pre ++ X, pre.length + k + n⟩) := by
  rw [readFull_ok]
  · rw [data_drop]
  · simp only [List.length_append]
    omega

theorem readFull_seg (pre seg rest : List Nat) :
    readFull ⟨pre ++ (seg ++ rest), pre.length⟩ seg.length =
      .ok (seg, ⟨pre ++ (seg ++ rest), pre.length + seg.length⟩) := by
  have h := readFull_at pre (seg ++ rest) 0 seg.length (by simp)
  simpa [List.take_left] using h

theorem stream_assoc (pre seg rest : List Nat) :
    (⟨pre ++ (seg ++ rest), pre.length + seg.length⟩ : ByteStream) =
      ⟨(pre ++ seg) ++ rest, (pre ++ seg).length⟩ := by
  simp [List.append_assoc]

theorem readHeader_at (pre rest : List Nat) (a b c d : Nat) :
    ReadFPDTRecordHeader ⟨pre ++ ([a, b, c, d] ++ rest), pre.length⟩ =
      .ok ((a + 256 * b, c, d), ⟨pre ++ ([a, b, c, d] ++ rest), pre.length + 4⟩) := by
  have h0 : readFull ⟨pre ++ ([a, b, c, d] ++ rest), pre.length⟩ 2 =
      .ok ([a, b], ⟨pre ++ ([a, b, c, d] ++ rest), pre.length + 2⟩) := by
    have h := readFull_at pre ([a, b, c, d] ++ rest) 0 2 (by simp)
    simpa using h
  have h2 : readFull ⟨pre ++ ([a, b, c, d] ++ rest), pre.length + 2⟩ 1 =
      .ok ([c], ⟨pre ++ ([a, b, c, d] ++ rest), pre.length + 3⟩) := by
    have h := readFull_at pre ([a, b, c, d] ++ rest) 2 1 (by simp)
    simpa [Nat.add_assoc] using h
  have h3 : readFull ⟨pre ++ ([a, b, c, d] ++ rest), pre.length + 3⟩ 1 =
      .ok ([d], ⟨pre ++ ([a, b, c, d] ++ rest), pre.length + 4⟩) := by
    have h := readFull_at pre ([a, b, c, d] ++ rest) 3 1 (by simp)
    simpa [Nat.add_assoc] using h
  simp only [ReadFPDTRecordHeader, h0, h2, h3]
  simp [leNat]

theorem readDyn_at (pre hook proc ts guid descr rest : List Nat) (len : Nat)
    (hhook : hook.length = 2) (hproc : proc.length = 4) (hts : ts.length = 8)
    (hguid : guid.length = 16) (hdescr : descr.length = (len + 222) % 256) :
    readFirmwarePerformanceDataTableDynamicRecord
        ⟨pre ++ (hook ++ (proc ++ (ts ++ (guid ++ (descr ++ rest))))), pre.length⟩ len =
      .ok (⟨eventTypeMap (leNat hook), leNat proc, leNat ts, guid, descr⟩,
           ⟨pre ++ (hook ++ (proc ++ (ts ++ (guid ++ (descr ++ rest))))),
            pre.length + (30 + descr.length)⟩) := by
  simp only [readFirmwarePerformanceDataTableDynamicRecord]
  rw [show (2 : Nat) = hook.length from hhook.symm,
      show (4 : Nat) = proc.length from hproc.symm,
      show (8 : Nat) = ts.length from hts.symm,
      show (16 : Nat) = guid.length from hguid.symm,
      ← hdescr]
  simp only [readFull_seg, stream_assoc]
  simp [List.append_assoc, hhook, hproc, hts, hguid]
  omega

/-! ### Little-endian encoding lemmas -/

theorem toLEBytes_length (k n : Nat) : (toLEBytes k n).length = k := by
  induction k generalizing n with
  | zero => simp [toLEBytes]
  | succ k ih => simp [toLEBytes, ih]

theorem leNat_toLEBytes (k n : Nat) : leNat (toLEBytes k n) = n % 256 ^ k := by
  induction k generalizing n with
  | zero => simp [toLEBytes, leNat, Nat.mod_one]
  | succ k ih =>
    rw [toLEBytes, leNat, ih, pow_succ, Nat.mul_comm (256 ^ k) 256, Nat.mod_mul]

theorem leNat_toLEBytes_of_lt (k n : Nat) (h : n < 256 ^ k) :
    leNat (toLEBytes k n) = n := by
  rw [leNat_toLEBytes, Nat.mod_eq_of_lt h]

/-! ### Inversion lemmas: what a successful or failing read tells us -/

theorem readFull_inv (s : ByteStream) (n : Nat) (bs : List Nat) (s1 : ByteStream)
    (h : readFull s n = .ok (bs, s1)) :
    s1.data = s.data ∧ s1.pos = s.pos + n ∧ s.pos + n ≤ s.data.length := by
  unfold readFull at h
  split at h
  · next hc => cases h; exact ⟨rfl, rfl, hc⟩
  · cases h

theorem readFull_err_inv (s : ByteStream) (n : Nat) (e : FbptError)
    (h : readFull s n = .error e) : e = .shortRead := by
  unfold readFull at h
  split at h
  · cases h
  · cases h; rfl

theorem ReadFPDTRecordHeader_inv (s : ByteStream) (out : Nat × Nat × Nat) (s1 : ByteStream)
    (h : ReadFPDTRecordHeader s = .ok (out, s1)) :
    s1.data = s.data ∧ s1.pos = s.pos + 4 ∧ s.pos + 4 ≤ s.data.length := by
  unfold ReadFPDTRecordHeader at h
  split at h
  · cases h
  · next ha =>
    split at h
    · cases h
    · next hb =>
      split at h
      · cases h
      · next hc =>
        cases h
        obtain ⟨da, pa, la⟩ := readFull_inv _ _ _ _ ha
        obtain ⟨db, pb, lb⟩ := readFull_inv _ _ _ _ hb
        obtain ⟨dc, pc, lc⟩ := readFull_inv _ _ _ _ hc
        have hd := dc.trans (db.trans da)
        have hl2 : _ = s.data.length := congrArg List.length (db.trans da)
        exact ⟨hd, by omega, by omega⟩

theorem ReadFPDTRecordHeader_err_inv (s : ByteStream) (e : FbptError)
    (h : ReadFPDTRecordHeader s = .error e) : e = .shortRead := by
  unfold ReadFPDTRecordHeader at h
  split at h
  · next ha => cases h; exact readFull_err_inv _ _ _ ha
  · next ha =>
    split at h
    · next hb => cases h; exact readFull_err_inv _ _ _ hb
    · next hb =>
      split at h
      · next hc => cases h; exact readFull_err_inv _ _ _ hc
      · cases h

theorem readDyn_inv (s : ByteStream) (len : Nat) (rec : MEASUREMENT_RECORD) (s2 : ByteStream)
    (h : readFirmwarePerformanceDataTableDynamicRecord s len = .ok (rec, s2)) :
    s2.data = s.data ∧ s.pos ≤ s2.pos := by
  unfold readFirmwarePerformanceDataTableDynamicRecord at h
  split at h
  · cases h
  · next h1 =>
    split at h
    · cases h
    · next h2 =>
      split at h
      · cases h
      · next h3 =>
        split at h
        · cases h
        · next h4 =>
          split at h
          · cases h
          · next h5 =>
            cases h
            obtain ⟨d1, p1, _⟩ := readFull_inv _ _ _ _ h1
            obtain ⟨d2, p2, _⟩ := readFull_inv _ _ _ _ h2
            obtain ⟨d3, p3, _⟩ := readFull_inv _ _ _ _ h3
            obtain ⟨d4, p4, _⟩ := readFull_inv _ _ _ _ h4
            obtain ⟨d5, p5, _⟩ := readFull_inv _ _ _ _ h5
            exact ⟨d5.trans (d4.trans (d3.trans (d2.trans d1))), by omega⟩

theorem readDyn_err_inv (s : ByteStream) (len : Nat) (e : FbptError)
    (h : readFirmwarePerformanceDataTableDynamicRecord s len = .error e) :
    e = .shortRead := by
  unfold readFirmwarePerformanceDataTableDynamicRecord at h
  split at h
  · next h1 => cases h; exact readFull_err_inv _ _ _ h1
  · next h1 =>
    split at h
    · next h2 => cases h; exact readFull_err_inv _ _ _ h2
    · next h2 =>
      split at h
      · next h3 => cases h; exact readFull_err_inv _ _ _ h3
      · next h3 =>
        split at h
        · next h4 => cases h; exact readFull_err_inv _ _ _ h4
        · next h4 =>
          split at h
          · next h5 => cases h; exact readFull_err_inv _ _ _ h5
          · cases h

/-! ### Termination: the loop fuel is never exhausted -/



theorem loopFuelBound_pos (s : ByteStream) : 1 ≤ loopFuelBound s := by
  unfold loopFuelBound; omega

theorem scanLoop_fuel_stable (tl : Nat) : ∀ f1 : Nat, ∀ f2 : Nat, ∀ s : ByteStream,
    ∀ i b : Nat, ∀ recs : List MEASUREMENT_RECORD,
    loopFuelBound s ≤ f1 → loopFuelBound s ≤ f2 →
    scanLoop tl f1 s i b recs = scanLoop tl f2 s i b recs := by
  intro f1
  induction f1 with
  | zero =>
    intro f2 s i b recs h1 h2
    have := loopFuelBound_pos s
    omega
  | succ n ih =>
    intro f2 s i b recs h1 h2
    have hpos := loopFuelBound_pos s
    cases f2 with
    | zero => omega
    | succ m =>
      simp only [scanLoop]
      by_cases hc : b < tableBodyLen tl ∧ i < maxNumberOfFBPTPerfRecords
      · simp only [hc, if_true]
        cases hh : ReadFPDTRecordHeader s with
        | error e => rfl
        | ok pr =>
          obtain ⟨⟨ty, len, rev⟩, s1⟩ := pr
          obtain ⟨hdat, hpos1, hle⟩ := ReadFPDTRecordHeader_inv _ _ _ hh
          by_cases hty : ty = FPDT_DYNAMIC_STRING_EVENT_RECORD_IDENTIFIER
          · simp only [hty, if_true]
            cases hd : readFirmwarePerformanceDataTableDynamicRecord s1 len with
            | error e => rfl
            | ok pr2 =>
              obtain ⟨rec, s2⟩ := pr2
              obtain ⟨hdat2, hpos2⟩ := readDyn_inv _ _ _ _ hd
              apply ih
              · unfold loopFuelBound at h1 ⊢
                rw [hdat2, hdat]
                omega
              · unfold loopFuelBound at h2 ⊢
                rw [hdat2, hdat]
                omega
          · simp only [hty, if_false]
            apply ih
            · unfold loopFuelBound at h1 ⊢
              simp only [hdat]
              omega
            · unfold loopFuelBound at h2 ⊢
              simp only [hdat]
              omega
      · simp only [hc, if_false]

theorem scanLoop_no_fuel_exhausted (tl : Nat) : ∀ fuel : Nat, ∀ s : ByteStream,
    ∀ i b : Nat, ∀ recs : List MEASUREMENT_RECORD,
    loopFuelBound s ≤ fuel →
    (scanLoop tl fuel s i b recs).result.error ≠ some .fuelExhausted := by
  intro fuel
  induction fuel with
  | zero =>
    intro s i b recs h1
    have := loopFuelBound_pos s
    omega
  | succ n ih =>
    intro s i b recs h1
    simp only [scanLoop]
    by_cases hc : b < tableBodyLen tl ∧ i < maxNumberOfFBPTPerfRecords
    · simp only [hc, if_true]
      cases hh : ReadFPDTRecordHeader s with
      | error e =>
        have := ReadFPDTRecordHeader_err_inv _ _ hh
        subst this
        simp
      | ok pr =>
        obtain ⟨⟨ty, len, rev⟩, s1⟩ := pr
        obtain ⟨hdat, hpos1, hle⟩ := ReadFPDTRecordHeader_inv _ _ _ hh
        by_cases hty : ty = FPDT_DYNAMIC_STRING_EVENT_RECORD_IDENTIFIER
        · simp only [hty, if_true]
          cases hd : readFirmwarePerformanceDataTableDynamicRecord s1 len with
          | error e =>
            have := readDyn_err_inv _ _ _ hd
            subst this
            simp
          | ok pr2 =>
            obtain ⟨rec, s2⟩ := pr2
            obtain ⟨hdat2, hpos2⟩ := readDyn_inv _ _ _ _ hd
            apply ih
            unfold loopFuelBound at h1 ⊢
            rw [hdat2, hdat]
            omega
        · simp only [hty, if_false]
          apply ih
          unfold loopFuelBound at h1 ⊢
          simp only [hdat]
          omega
    · simp only [hc, if_false]
      simp

/-! ### Shape of the result: errors carry a nil slice, successes a full one -/

theorem scanLoop_error_records_none (tl : Nat) : ∀ fuel : Nat, ∀ s : ByteStream,
    ∀ i b : Nat, ∀ recs : List MEASUREMENT_RECORD,
    (scanLoop tl fuel s i b recs).result.error.isSome →
    (scanLoop tl fuel s i b recs).result.records = none := by
  intro fuel
  induction fuel with
  | zero =>
    intro s i b recs
    simp [scanLoop]
  | succ n ih =>
    intro s i b recs
    simp only [scanLoop]
    by_cases hc : b < tableBodyLen tl ∧ i < maxNumberOfFBPTPerfRecords
    · simp only [hc, if_true]
      cases hh : ReadFPDTRecordHeader s with
      | error e => simp
      | ok pr =>
        obtain ⟨⟨ty, len, rev⟩, s1⟩ := pr
        by_cases hty : ty = FPDT_DYNAMIC_STRING_EVENT_RECORD_IDENTIFIER
        · simp only [hty, if_true]
          cases hd : readFirmwarePerformanceDataTableDynamicRecord s1 len with
          | error e => simp
          | ok pr2 =>
            obtain ⟨rec, s2⟩ := pr2
            exact ih _ _ _ _
        · simp only [hty, if_false]
          exact ih _ _ _ _
    · simp only [hc, if_false]
      simp

/-- Loop invariant for the record slice: it always has length 2000 and
every slot from the current index on still holds the zero record. -/
theorem scanLoop_records_shape (tl : Nat) : ∀ fuel : Nat, ∀ s : ByteStream,
    ∀ i b : Nat, ∀ recs : List MEASUREMENT_RECORD,
    recs.length = maxNumberOfFBPTPerfRecords → i ≤ maxNumberOfFBPTPerfRecords →
    recs.drop i = List.replicate (maxNumberOfFBPTPerfRecords - i) zeroMeasurementRecord →
    ∀ c : Nat, ∀ l : List MEASUREMENT_RECORD,
    (scanLoop tl fuel s i b recs).result = ⟨c, some l, none⟩ →
    l.length = maxNumberOfFBPTPerfRecords ∧ i ≤ c ∧ c ≤ maxNumberOfFBPTPerfRecords ∧
      l.drop c = List.replicate (maxNumberOfFBPTPerfRecords - c) zeroMeasurementRecord := by
  intro fuel
  induction fuel with
  | zero =>
    intro s i b recs hlen hi hdrop c l hres
    simp [scanLoop] at hres
  | succ n ih =>
    intro s i b recs hlen hi hdrop c l
    simp only [scanLoop]
    by_cases hc : b < tableBodyLen tl ∧ i < maxNumberOfFBPTPerfRecords
    · simp only [hc, if_true]
      cases hh : ReadFPDTRecordHeader s with
      | error e =>
        intro hres
        simp at hres
      | ok pr =>
        obtain ⟨⟨ty, len, rev⟩, s1⟩ := pr
        by_cases hty : ty = FPDT_DYNAMIC_STRING_EVENT_RECORD_IDENTIFIER
        · simp only [hty, if_true]
          cases hd : readFirmwarePerformanceDataTableDynamicRecord s1 len with
          | error e =>
            intro hres
            simp at hres
          | ok pr2 =>
            obtain ⟨rec, s2⟩ := pr2
            intro hres
            have h1 : (recs.set i rec).length = maxNumberOfFBPTPerfRecords := by
              rw [List.length_set]; exact hlen
            have h2 : i + 1 ≤ maxNumberOfFBPTPerfRecords := hc.2
            have h3 : (recs.set i rec).drop (i + 1) =
                List.replicate (maxNumberOfFBPTPerfRecords - (i + 1)) zeroMeasurementRecord := by
              rw [List.drop_set_of_lt rec recs (by omega)]
              have hstep : recs.drop (i + 1) = (recs.drop i).drop 1 := by
                rw [List.drop_drop]
              rw [hstep, hdrop]
              cases hmr : maxNumberOfFBPTPerfRecords - i with
              | zero => omega
              | succ m =>
                rw [show maxNumberOfFBPTPerfRecords - (i + 1) = m from by omega]
                simp [List.replicate_succ]
            have hfin := ih _ _ _ _ h1 h2 h3 c l hres
            exact ⟨hfin.1, by omega, hfin.2.2.1, hfin.2.2.2⟩
        · simp only [hty, if_false]
          intro hres
          exact ih _ _ _ _ hlen hi hdrop c l hres
    · simp only [hc, if_false]
      intro hres
      simp only [ScanResult.mk.injEq] at hres
      obtain ⟨h1, h2, -⟩ := hres
      obtain rfl : recs = l := Option.some.inj h2
      subst h1
      exact ⟨hlen, Nat.le_refl _, hi, hdrop⟩

theorem RecSpec.encode_length (r : RecSpec) (h : r.WF) : r.encode.length = r.len := by
  cases r with
  | dyn hk p t g d =>
    obtain ⟨-, -, -, hg, -⟩ := h
    simp [RecSpec.encode, RecSpec.len, toLEBytes_length, hg]
    omega
  | other ty l body =>
    obtain ⟨-, -, hl, -, hb⟩ := h
    simp [RecSpec.encode, RecSpec.len, hb]
    omega

theorem RecSpec.len_ge_4 (r : RecSpec) (h : r.WF) : 4 ≤ r.len := by
  cases r with
  | dyn hk p t g d => simp [RecSpec.len]; omega
  | other ty l body => exact h.2.2.1

theorem dynRecs_length (rs : List RecSpec) : (dynRecs rs).length = dynCount rs := by
  induction rs with
  | nil => rfl
  | cons r rs ih =>
    cases r with
    | dyn hk p t g d => simp [dynRecs, dynCount, ih]
    | other ty l body => simp [dynRecs, dynCount, ih]

theorem leNat_toLEBytes2 (n : Nat) (h : n < 2 ^ 16) : leNat (toLEBytes 2 n) = n := by
  rw [leNat_toLEBytes]; omega

theorem leNat_toLEBytes4 (n : Nat) (h : n < 2 ^ 32) : leNat (toLEBytes 4 n) = n := by
  rw [leNat_toLEBytes]; omega

theorem leNat_toLEBytes8 (n : Nat) (h : n < 2 ^ 64) : leNat (toLEBytes 8 n) = n := by
  rw [leNat_toLEBytes]; omega

theorem tableBodyLen_lt (tl : Nat) : tableBodyLen tl < 2 ^ 32 := by
  unfold tableBodyLen
  exact Nat.mod_lt _ (by norm_num)

theorem scanLoop_wf_ok (tl : Nat) : ∀ (specs : List RecSpec), ∀ (fuel : Nat),
    ∀ (pre suf : List Nat), ∀ (i b : Nat), ∀ (recs : List MEASUREMENT_RECORD),
    (∀ r ∈ specs, r.WF) →
    b + sumLens specs = tableBodyLen tl →
    i + dynCount specs < maxNumberOfFBPTPerfRecords →
    specs.length < fuel →
    scanLoop tl fuel ⟨pre ++ (encodeRecs specs ++ suf), pre.length⟩ i b recs =
      ⟨⟨i + dynCount specs, some (setFrom recs i (dynRecs specs)), none⟩,
       ⟨pre ++ (encodeRecs specs ++ suf), pre.length + sumLens specs⟩,
       b + sumLens specs⟩ := by
  intro specs
  induction specs with
  | nil =>
    intro fuel pre suf i b recs hwf hsum hcap hfuel
    cases fuel with
    | zero => omega
    | succ f =>
      simp only [scanLoop]
      have hnot : ¬(b < tableBodyLen tl ∧ i < maxNumberOfFBPTPerfRecords) := by
        simp only [sumLens] at hsum
        omega
      rw [if_neg hnot]
      simp [encodeRecs, sumLens, dynCount, dynRecs, setFrom]
  | cons r rest ih =>
    intro fuel pre suf i b recs hwf hsum hcap hfuel
    have hrwf : r.WF := hwf r (List.mem_cons_self r rest)
    have hrestwf : ∀ q ∈ rest, q.WF := fun q hq => hwf q (List.mem_cons_of_mem r hq)
    have hlen4 : 4 ≤ r.len := RecSpec.len_ge_4 r hrwf
    have hTlt : tableBodyLen tl < 2 ^ 32 := tableBodyLen_lt tl
    cases fuel with
    | zero => simp at hfuel
    | succ f =>
      have hsum2 : b + (r.len + sumLens rest) = tableBodyLen tl := by
        simpa [sumLens] using hsum
      have hcond : b < tableBodyLen tl ∧ i < maxNumberOfFBPTPerfRecords := by
        constructor
        · omega
        · cases r with
          | dyn hv pv tv gv dv => simp only [dynCount] at hcap; omega
          | other tyv lv bodyv => simp only [dynCount] at hcap; omega
      cases r with
      | dyn hv pv tv gv dv =>
        obtain ⟨hh16, hp32, ht64, hg16, hd221⟩ := hrwf
        have hD : pre ++ (encodeRecs (RecSpec.dyn hv pv tv gv dv :: rest) ++ suf) =
            pre ++ ([17, 16, 34 + dv.length, 1] ++
              (toLEBytes 2 hv ++ (toLEBytes 4 pv ++ (toLEBytes 8 tv ++
                (gv ++ (dv ++ (encodeRecs rest ++ suf))))))) := by
          simp [encodeRecs, RecSpec.encode, List.append_assoc]
        rw [hD]
        simp only [scanLoop]
        rw [if_pos hcond]
        simp only [readHeader_at]
        have hty : (17 + 256 * 16 : Nat) = FPDT_DYNAMIC_STRING_EVENT_RECORD_IDENTIFIER := by
          decide
        rw [if_pos hty]
        have e1 : (⟨pre ++ ([17, 16, 34 + dv.length, 1] ++
              (toLEBytes 2 hv ++ (toLEBytes 4 pv ++ (toLEBytes 8 tv ++
                (gv ++ (dv ++ (encodeRecs rest ++ suf))))))), pre.length + 4⟩ : ByteStream) =
            ⟨(pre ++ [17, 16, 34 + dv.length, 1]) ++
              (toLEBytes 2 hv ++ (toLEBytes 4 pv ++ (toLEBytes 8 tv ++
                (gv ++ (dv ++ (encodeRecs rest ++ suf)))))),
             (pre ++ [17, 16, 34 + dv.length, 1]).length⟩ := by
          simp [List.append_assoc]
        rw [e1]
        have hdyn := readDyn_at (pre ++ [17, 16, 34 + dv.length, 1])
          (toLEBytes 2 hv) (toLEBytes 4 pv) (toLEBytes 8 tv) gv dv
          (encodeRecs rest ++ suf) (34 + dv.length)
          (toLEBytes_length 2 hv) (toLEBytes_length 4 pv) (toLEBytes_length 8 tv)
          hg16 (by omega)
        simp only [hdyn]
        rw [leNat_toLEBytes2 hv hh16, leNat_toLEBytes4 pv hp32, leNat_toLEBytes8 tv ht64]
        have hmod : (b + (34 + dv.length)) % 2 ^ 32 = b + (34 + dv.length) := by
          simp only [RecSpec.len] at hsum2
          omega
        rw [hmod]
        have e2 : (⟨(pre ++ [17, 16, 34 + dv.length, 1]) ++
              (toLEBytes 2 hv ++ (toLEBytes 4 pv ++ (toLEBytes 8 tv ++
                (gv ++ (dv ++ (encodeRecs rest ++ suf)))))),
             (pre ++ [17, 16, 34 + dv.length, 1]).length + (30 + dv.length)⟩ : ByteStream) =
            ⟨(pre ++ RecSpec.encode (RecSpec.dyn hv pv tv gv dv)) ++ (encodeRecs rest ++ suf),
             (pre ++ RecSpec.encode (RecSpec.dyn hv pv tv gv dv)).length⟩ := by
          simp [RecSpec.encode, List.append_assoc, toLEBytes_length, hg16]
          omega
        rw [e2]
        rw [ih f (pre ++ RecSpec.encode (RecSpec.dyn hv pv tv gv dv)) suf (i + 1)
          (b + (34 + dv.length))
          (recs.set i ⟨eventTypeMap hv, pv, tv, gv, dv⟩) hrestwf
          (by simp only [RecSpec.len] at hsum2; omega)
          (by simp only [dynCount] at hcap; omega)
          (by simp at hfuel; omega)]
        simp [dynCount, dynRecs, setFrom, sumLens, RecSpec.len, RecSpec.encode,
          List.append_assoc, toLEBytes_length, hg16]
        omega
      | other tyv lv bodyv =>
        obtain ⟨hty16, htyne, hl4, hl255, hblen⟩ := hrwf
        have hD : pre ++ (encodeRecs (RecSpec.other tyv lv bodyv :: rest) ++ suf) =
            pre ++ ([tyv % 256, tyv / 256 % 256, lv, 1] ++
              (bodyv ++ (encodeRecs rest ++ suf))) := by
          simp [encodeRecs, RecSpec.encode, List.append_assoc]
        rw [hD]
        simp only [scanLoop]
        rw [if_pos hcond]
        simp only [readHeader_at]
        have hty0 : tyv % 256 + 256 * (tyv / 256 % 256) = tyv := by omega
        rw [hty0]
        rw [if_neg htyne]
        have hskip : (lv + 252) % 256 = lv - 4 := by omega
        have hmod : (b + lv) % 2 ^ 32 = b + lv := by
          simp only [RecSpec.len] at hsum2
          omega
        rw [hskip, hmod]
        have e2 : (⟨pre ++ ([tyv % 256, tyv / 256 % 256, lv, 1] ++
              (bodyv ++ (encodeRecs rest ++ suf))), pre.length + 4 + (lv - 4)⟩ : ByteStream) =
            ⟨(pre ++ RecSpec.encode (RecSpec.other tyv lv bodyv)) ++ (encodeRecs rest ++ suf),
             (pre ++ RecSpec.encode (RecSpec.other tyv lv bodyv)).length⟩ := by
          simp [RecSpec.encode, List.append_assoc, hblen]
          omega
        rw [e2]
        rw [ih f (pre ++ RecSpec.encode (RecSpec.other tyv lv bodyv)) suf i (b + lv)
          recs hrestwf
          (by simp only [RecSpec.len] at hsum2; omega)
          (by simp only [dynCount] at hcap; omega)
          (by simp at hfuel; omega)]
        simp [dynCount, dynRecs, setFrom, sumLens, RecSpec.len, RecSpec.encode,
          List.append_assoc, hblen]
        omega

theorem scanLoop_wf_cap (tl : Nat) : ∀ (specs : List RecSpec), ∀ (fuel : Nat),
    ∀ (pre suf : List Nat), ∀ (i b : Nat), ∀ (recs : List MEASUREMENT_RECORD),
    (∀ r ∈ specs, r.WF) →
    b + sumLens specs = tableBodyLen tl →
    maxNumberOfFBPTPerfRecords < i + dynCount specs →
    i ≤ maxNumberOfFBPTPerfRecords →
    specs.length < fuel →
    (scanLoop tl fuel ⟨pre ++ (encodeRecs specs ++ suf), pre.length⟩ i b recs).result =
      ⟨maxNumberOfFBPTPerfRecords,
       some (setFrom recs i ((dynRecs specs).take (maxNumberOfFBPTPerfRecords - i))),
       none⟩ := by
  intro specs
  induction specs with
  | nil =>
    intro fuel pre suf i b recs hwf hsum hcap hile hfuel
    simp only [dynCount] at hcap
    omega
  | cons r rest ih =>
    intro fuel pre suf i b recs hwf hsum hcap hile hfuel
    have hrwf : r.WF := hwf r (List.mem_cons_self r rest)
    have hrestwf : ∀ q ∈ rest, q.WF := fun q hq => hwf q (List.mem_cons_of_mem r hq)
    have hlen4 : 4 ≤ r.len := RecSpec.len_ge_4 r hrwf
    have hTlt : tableBodyLen tl < 2 ^ 32 := tableBodyLen_lt tl
    cases fuel with
    | zero => simp at hfuel
    | succ f =>
      have hsum2 : b + (r.len + sumLens rest) = tableBodyLen tl := by
        simpa [sumLens] using hsum
      by_cases hi : i = maxNumberOfFBPTPerfRecords
      · simp only [scanLoop]
        rw [if_neg (by omega)]
        simp [hi, setFrom]
      · have hcond : b < tableBodyLen tl ∧ i < maxNumberOfFBPTPerfRecords := by
          constructor
          · omega
          · omega
        cases r with
        | dyn hv pv tv gv dv =>
          obtain ⟨hh16, hp32, ht64, hg16, hd221⟩ := hrwf
          have hD : pre ++ (encodeRecs (RecSpec.dyn hv pv tv gv dv :: rest) ++ suf) =
              pre ++ ([17, 16, 34 + dv.length, 1] ++
                (toLEBytes 2 hv ++ (toLEBytes 4 pv ++ (toLEBytes 8 tv ++
                  (gv ++ (dv ++ (encodeRecs rest ++ suf))))))) := by
            simp [encodeRecs, RecSpec.encode, List.append_assoc]
          rw [hD]
          simp only [scanLoop]
          rw [if_pos hcond]
          simp only [readHeader_at]
          have hty : (17 + 256 * 16 : Nat) = FPDT_DYNAMIC_STRING_EVENT_RECORD_IDENTIFIER := by
            decide
          rw [if_pos hty]
          have e1 : (⟨pre ++ ([17, 16, 34 + dv.length, 1] ++
                (toLEBytes 2 hv ++ (toLEBytes 4 pv ++ (toLEBytes 8 tv ++
                  (gv ++ (dv ++ (encodeRecs rest ++ suf))))))), pre.length + 4⟩ : ByteStream) =
              ⟨(pre ++ [17, 16, 34 + dv.length, 1]) ++
                (toLEBytes 2 hv ++ (toLEBytes 4 pv ++ (toLEBytes 8 tv ++
                  (gv ++ (dv ++ (encodeRecs rest ++ suf)))))),
               (pre ++ [17, 16, 34 + dv.length, 1]).length⟩ := by
            simp [List.append_assoc]
          rw [e1]
          have hdyn := readDyn_at (pre ++ [17, 16, 34 + dv.length, 1])
            (toLEBytes 2 hv) (toLEBytes 4 pv) (toLEBytes 8 tv) gv dv
            (encodeRecs rest ++ suf) (34 + dv.length)
            (toLEBytes_length 2 hv) (toLEBytes_length 4 pv) (toLEBytes_length 8 tv)
            hg16 (by omega)
          simp only [hdyn]
          rw [leNat_toLEBytes2 hv hh16, leNat_toLEBytes4 pv hp32, leNat_toLEBytes8 tv ht64]
          have hmod : (b + (34 + dv.length)) % 2 ^ 32 = b + (34 + dv.length) := by
            simp only [RecSpec.len] at hsum2
            omega
          rw [hmod]
          have e2 : (⟨(pre ++ [17, 16, 34 + dv.length, 1]) ++
                (toLEBytes 2 hv ++ (toLEBytes 4 pv ++ (toLEBytes 8 tv ++
                  (gv ++ (dv ++ (encodeRecs rest ++ suf)))))),
               (pre ++ [17, 16, 34 + dv.length, 1]).length + (30 + dv.length)⟩ : ByteStream) =
              ⟨(pre ++ RecSpec.encode (RecSpec.dyn hv pv tv gv dv)) ++ (encodeRecs rest ++ suf),
               (pre ++ RecSpec.encode (RecSpec.dyn hv pv tv gv dv)).length⟩ := by
            simp [RecSpec.encode, List.append_assoc, toLEBytes_length, hg16]
            omega
          rw [e2]
          rw [ih f (pre ++ RecSpec.encode (RecSpec.dyn hv pv tv gv dv)) suf (i + 1)
            (b + (34 + dv.length))
            (recs.set i ⟨eventTypeMap hv, pv, tv, gv, dv⟩) hrestwf
            (by simp only [RecSpec.len] at hsum2; omega)
            (by simp only [dynCount] at hcap; omega)
            (by omega)
            (by simp at hfuel; omega)]
          rw [show maxNumberOfFBPTPerfRecords - i =
            (maxNumberOfFBPTPerfRecords - (i + 1)) + 1 from by omega]
          simp [dynRecs, setFrom, List.take_succ_cons]
        | other tyv lv bodyv =>
          obtain ⟨hty16, htyne, hl4, hl255, hblen⟩ := hrwf
          have hD : pre ++ (encodeRecs (RecSpec.other tyv lv bodyv :: rest) ++ suf) =
              pre ++ ([tyv % 256, tyv / 256 % 256, lv, 1] ++
                (bodyv ++ (encodeRecs rest ++ suf))) := by
            simp [encodeRecs, RecSpec.encode, List.append_assoc]
          rw [hD]
          simp only [scanLoop]
          rw [if_pos hcond]
          simp only [readHeader_at]
          have hty0 : tyv % 256 + 256 * (tyv / 256 % 256) = tyv := by omega
          rw [hty0]
          rw [if_neg htyne]
          have hskip : (lv + 252) % 256 = lv - 4 := by omega
          have hmod : (b + lv) % 2 ^ 32 = b + lv := by
            simp only [RecSpec.len] at hsum2
            omega
          rw [hskip, hmod]
          have e2 : (⟨pre ++ ([tyv % 256, tyv / 256 % 256, lv, 1] ++
                (bodyv ++ (encodeRecs rest ++ suf))), pre.length + 4 + (lv - 4)⟩ : ByteStream) =
              ⟨(pre ++ RecSpec.encode (RecSpec.other tyv lv bodyv)) ++ (encodeRecs rest ++ suf),
               (pre ++ RecSpec.encode (RecSpec.other tyv lv bodyv)).length⟩ := by
            simp [RecSpec.encode, List.append_assoc, hblen]
            omega
          rw [e2]
          rw [ih f (pre ++ RecSpec.encode (RecSpec.other tyv lv bodyv)) suf i (b + lv)
            recs hrestwf
            (by simp only [RecSpec.len] at hsum2; omega)
            (by simp only [dynCount] at hcap; omega)
            (by omega)
            (by simp at hfuel; omega)]
          simp [dynRecs]

theorem encodeRecs_length (specs : List RecSpec) (hwf : ∀ r ∈ specs, r.WF) :
    (encodeRecs specs).length = sumLens specs := by
  induction specs with
  | nil => rfl
  | cons r rest ih =>
    have hr : r.WF := hwf r (List.mem_cons_self r rest)
    have hrest : ∀ q ∈ rest, q.WF := fun q hq => hwf q (List.mem_cons_of_mem r hq)
    simp [encodeRecs, sumLens, RecSpec.encode_length r hr, ih hrest]

theorem length_le_sumLens (specs : List RecSpec) (hwf : ∀ r ∈ specs, r.WF) :
    specs.length ≤ sumLens specs := by
  induction specs with
  | nil => simp [sumLens]
  | cons r rest ih =>
    have hr : 4 ≤ r.len := RecSpec.len_ge_4 r (hwf r (List.mem_cons_self r rest))
    have hrest : ∀ q ∈ rest, q.WF := fun q hq => hwf q (List.mem_cons_of_mem r hq)
    have := ih hrest
    simp only [sumLens, List.length_cons]
    omega

theorem tableBodyLen_of_lt (s : Nat) (h : 8 + s < 2 ^ 32) : tableBodyLen (8 + s) = s := by
  unfold tableBodyLen
  omega

theorem verifyFBPTSignature_at (pad rest : List Nat) (tl : Nat) (htl : tl < 2 ^ 32) :
    verifyFBPTSignature ⟨pad ++ (fbptSigBytes ++ (toLEBytes 4 tl ++ rest)), 0⟩ pad.length =
      .ok (tl, ⟨pad ++ (fbptSigBytes ++ (toLEBytes 4 tl ++ rest)), pad.length + 8⟩) := by
  have h1 : readFull ⟨pad ++ (fbptSigBytes ++ (toLEBytes 4 tl ++ rest)), pad.length⟩ 4 =
      .ok (fbptSigBytes, ⟨pad ++ (fbptSigBytes ++ (toLEBytes 4 tl ++ rest)), pad.length + 4⟩) := by
    have h := readFull_seg pad fbptSigBytes (toLEBytes 4 tl ++ rest)
    simpa [show fbptSigBytes.length = 4 from rfl] using h
  have h2 : readFull ⟨pad ++ (fbptSigBytes ++ (toLEBytes 4 tl ++ rest)), pad.length + 4⟩ 4 =
      .ok (toLEBytes 4 tl,
        ⟨pad ++ (fbptSigBytes ++ (toLEBytes 4 tl ++ rest)), pad.length + 8⟩) := by
    have h := readFull_at pad (fbptSigBytes ++ (toLEBytes 4 tl ++ rest)) 4 4
      (by simp [show fbptSigBytes.length = 4 from rfl, toLEBytes_length]; omega)
    have hb : ((fbptSigBytes ++ (toLEBytes 4 tl ++ rest)).drop 4).take 4 = toLEBytes 4 tl := by
      rw [show (4 : Nat) = fbptSigBytes.length from rfl, List.drop_left]
      rw [show fbptSigBytes.length = (toLEBytes 4 tl).length from by
        simp [toLEBytes_length, show fbptSigBytes.length = 4 from rfl]]
      exact List.take_left _ _
    rw [hb] at h
    simpa [Nat.add_assoc] using h
  simp only [verifyFBPTSignature, h1]
  simp only [if_true]
  simp only [h2]
  rw [leNat_toLEBytes_of_lt 4 tl (by norm_num; omega)]


theorem FindAllFull_wf_ok (specs : List RecSpec) (pad suf : List Nat)
    (hwf : ∀ r ∈ specs, r.WF)
    (hcap : dynCount specs < maxNumberOfFBPTPerfRecords)
    (hlt : 8 + sumLens specs < 2 ^ 32) :
    FindAllFBPTRecordsFull
        (pad ++ (fbptSigBytes ++ (toLEBytes 4 (8 + sumLens specs) ++ (encodeRecs specs ++ suf))))
        pad.length =
      ⟨⟨dynCount specs,
        some (setFrom (List.replicate maxNumberOfFBPTPerfRecords zeroMeasurementRecord) 0
          (dynRecs specs)),
        none⟩,
       ⟨pad ++ (fbptSigBytes ++ (toLEBytes 4 (8 + sumLens specs) ++ (encodeRecs specs ++ suf))),
        pad.length + (8 + sumLens specs)⟩,
       sumLens specs⟩ := by
  have henc := encodeRecs_length specs hwf
  have hsl := length_le_sumLens specs hwf
  simp only [FindAllFBPTRecordsFull, FindAllFBPTRecordsFullFuel,
    verifyFBPTSignature_at pad (encodeRecs specs ++ suf) (8 + sumLens specs) hlt]
  have e : (⟨pad ++ (fbptSigBytes ++ (toLEBytes 4 (8 + sumLens specs) ++
        (encodeRecs specs ++ suf))), pad.length + 8⟩ : ByteStream) =
      ⟨((pad ++ fbptSigBytes) ++ toLEBytes 4 (8 + sumLens specs)) ++ (encodeRecs specs ++ suf),
       ((pad ++ fbptSigBytes) ++ toLEBytes 4 (8 + sumLens specs)).length⟩ := by
    simp [List.append_assoc, toLEBytes_length, show fbptSigBytes.length = 4 from rfl]
  rw [e]
  rw [scanLoop_wf_ok (8 + sumLens specs) specs _
    ((pad ++ fbptSigBytes) ++ toLEBytes 4 (8 + sumLens specs)) suf 0 0
    (List.replicate maxNumberOfFBPTPerfRecords zeroMeasurementRecord) hwf
    (by rw [tableBodyLen_of_lt _ hlt]; omega)
    (by omega)
    (by simp [List.length_append, toLEBytes_length,
          show fbptSigBytes.length = 4 from rfl, henc]
        omega)]
  simp [List.append_assoc, toLEBytes_length, show fbptSigBytes.length = 4 from rfl]
  omega

theorem FindAll_wf_cap (specs : List RecSpec) (pad suf : List Nat)
    (hwf : ∀ r ∈ specs, r.WF)
    (hcap : maxNumberOfFBPTPerfRecords < dynCount specs)
    (hlt : 8 + sumLens specs < 2 ^ 32) :
    FindAllFBPTRecords
        (pad ++ (fbptSigBytes ++ (toLEBytes 4 (8 + sumLens specs) ++ (encodeRecs specs ++ suf))))
        pad.length =
      ⟨maxNumberOfFBPTPerfRecords,
       some (setFrom (List.replicate maxNumberOfFBPTPerfRecords zeroMeasurementRecord) 0
         ((dynRecs specs).take maxNumberOfFBPTPerfRecords)),
       none⟩ := by
  have henc := encodeRecs_length specs hwf
  have hsl := length_le_sumLens specs hwf
  simp only [FindAllFBPTRecords, FindAllFBPTRecordsFull, FindAllFBPTRecordsFullFuel,
    verifyFBPTSignature_at pad (encodeRecs specs ++ suf) (8 + sumLens specs) hlt]
  have e : (⟨pad ++ (fbptSigBytes ++ (toLEBytes 4 (8 + sumLens specs) ++
        (encodeRecs specs ++ suf))), pad.length + 8⟩ : ByteStream) =
      ⟨((pad ++ fbptSigBytes) ++ toLEBytes 4 (8 + sumLens specs)) ++ (encodeRecs specs ++ suf),
       ((pad ++ fbptSigBytes) ++ toLEBytes 4 (8 + sumLens specs)).length⟩ := by
    simp [List.append_assoc, toLEBytes_length, show fbptSigBytes.length = 4 from rfl]
  rw [e]
  rw [scanLoop_wf_cap (8 + sumLens specs) specs _
    ((pad ++ fbptSigBytes) ++ toLEBytes 4 (8 + sumLens specs)) suf 0 0
    (List.replicate maxNumberOfFBPTPerfRecords zeroMeasurementRecord) hwf
    (by rw [tableBodyLen_of_lt _ hlt]; omega)
    (by omega)
    (by omega)
    (by simp [List.length_append, toLEBytes_length,
          show fbptSigBytes.length = 4 from rfl, henc]
        omega)]
  simp

theorem lookup_none_of_not_mem_keys : ∀ (l : List (Nat × String)) (c : Nat),
    c ∉ l.map Prod.fst → l.lookup c = none := by
  intro l
  induction l with
  | nil => intro c hc; rfl
  | cons kv tl ih =>
    intro c hc
    obtain ⟨k, v⟩ := kv
    simp only [List.map_cons, List.mem_cons] at hc
    push_neg at hc
    simp only [List.lookup]
    rw [show (c == k) = false from by simpa using hc.1]
    exact ih c hc.2

theorem lookup_eq_of_mem : ∀ (l : List (Nat × String)) (k : Nat) (v : String),
    (l.map Prod.fst).Nodup → (k, v) ∈ l → l.lookup k = some v := by
  intro l
  induction l with
  | nil => intro k v hnd hm; cases hm
  | cons kv tl ih =>
    intro k v hnd hm
    obtain ⟨k0, v0⟩ := kv
    simp only [List.map_cons, List.nodup_cons] at hnd
    cases hm with
    | head => simp [List.lookup]
    | tail _ hm2 =>
      have hne : k ≠ k0 := by
        intro he
        subst he
        exact hnd.1 (List.mem_map.mpr ⟨(k, v), hm2, rfl⟩)
      simp only [List.lookup]
      rw [show (k == k0) = false from by simpa using hne]
      exact ih k v hnd.2 hm2

theorem verifyFBPTSignature_inv (s0 : ByteStream) (addr tl : Nat) (s1 : ByteStream)
    (h : verifyFBPTSignature s0 addr = .ok (tl, s1)) :
    s1.data = s0.data ∧ s1.pos = addr + 8 := by
  unfold verifyFBPTSignature at h
  split at h
  · cases h
  · next ha =>
    split at h
    · split at h
      · cases h
      · next hb =>
        cases h
        obtain ⟨da, pa, la⟩ := readFull_inv _ _ _ _ ha
        obtain ⟨db, pb, lb⟩ := readFull_inv _ _ _ _ hb
        exact ⟨db.trans da, by simp at pa; omega⟩
    · cases h

theorem verifyFBPTSignature_err_not_fuel (s0 : ByteStream) (addr : Nat) (e : FbptError)
    (h : verifyFBPTSignature s0 addr = .error e) : e ≠ .fuelExhausted := by
  unfold verifyFBPTSignature at h
  split at h
  · next ha =>
    cases h
    rw [readFull_err_inv _ _ _ ha]
    simp
  · next ha =>
    split at h
    · split at h
      · next hb =>
        cases h
        rw [readFull_err_inv _ _ _ hb]
        simp
      · cases h
    · cases h
      simp

theorem FindAllFull_eq_scan (data : List Nat) (addr tl : Nat) (s : ByteStream)
    (h : verifyFBPTSignature ⟨data, 0⟩ addr = .ok (tl, s)) :
    FindAllFBPTRecordsFull data addr =
      scanLoop tl (data.length + 6) s 0 0
        (List.replicate maxNumberOfFBPTPerfRecords zeroMeasurementRecord) := by
  unfold FindAllFBPTRecordsFull FindAllFBPTRecordsFullFuel
  rw [h]

theorem FindAllFull_eq_err (data : List Nat) (addr : Nat) (e : FbptError)
    (h : verifyFBPTSignature ⟨data, 0⟩ addr = .error e) :
    FindAllFBPTRecordsFull data addr = ⟨⟨0, none, some e⟩, ⟨data, 0⟩, 0⟩ := by
  unfold FindAllFBPTRecordsFull FindAllFBPTRecordsFullFuel
  rw [h]

/-- C1 counterexample: a table whose declared length promises more bytes
than the source holds.  One dynamic-string record is decoded successfully,
then the next header read fails; the scan returns the short-read error and
the count 1, but the record slice is nil — the decoded record is discarded,
contrary to the claim that partial results are never discarded. -/
theorem fbpt_C1_counterexample :
    FindAllFBPTRecords c1Data 0 = ⟨1, none, some .shortRead⟩ := rfl

/-- C1 amended: when a read, seek or decode failure aborts the scan, the
error is returned together with the count of already-decoded records, but
the record slice itself is nil — the decoded record contents are discarded,
not returned as a prefix. -/
theorem fbpt_C1_amended : ∀ (data : List Nat) (addr : Nat),
    (FindAllFBPTRecords data addr).error.isSome →
    (FindAllFBPTRecords data addr).records = none := by
  intro data addr
  cases hv : verifyFBPTSignature ⟨data, 0⟩ addr with
  | error e =>
    rw [show FindAllFBPTRecords data addr = ⟨0, none, some e⟩ from by
      unfold FindAllFBPTRecords; rw [FindAllFull_eq_err data addr e hv]]
    intro
    rfl
  | ok pr =>
    obtain ⟨tl, s⟩ := pr
    rw [show FindAllFBPTRecords data addr = (scanLoop tl (data.length + 6) s 0 0
        (List.replicate maxNumberOfFBPTPerfRecords zeroMeasurementRecord)).result from by
      unfold FindAllFBPTRecords; rw [FindAllFull_eq_scan data addr tl s hv]]
    exact scanLoop_error_records_none tl _ s 0 0 _

/-- C1 witness: on a one-byte source the scan fails and the returned
record slice is nil. -/
theorem fbpt_C1_witness : (FindAllFBPTRecords [70] 0).records = none :=
  fbpt_C1_amended [70] 0 (by decide)

/-- C5 counterexample: a table declaring length 0 (which is <= 8).  The
claim says lengths 0 through 8 all give zero iterations and an empty,
non-erroneous result; instead the uint32 subtraction 0 - 8 wraps, the
loop runs, the header read fails, and the scan returns a short-read
error. -/
theorem fbpt_C5_counterexample :
    FindAllFBPTRecords [70, 66, 80, 84, 0, 0, 0, 0] 0 = ⟨0, none, some .shortRead⟩ := rfl

/-- C5 amended: only a declared length of exactly 8 makes
tableLength - 8 zero in uint32 arithmetic; such a table yields zero loop
iterations and the empty, non-erroneous result (count 0, a slice of 2000
zero records, nil error).  For lengths 0 through 7 the subtraction wraps
and the loop body runs. -/
theorem fbpt_C5_amended (pad suf : List Nat) :
    FindAllFBPTRecords (pad ++ (fbptSigBytes ++ (toLEBytes 4 8 ++ suf))) pad.length =
      ⟨0, some (List.replicate 2000 zeroMeasurementRecord), none⟩ := by
  have hv := verifyFBPTSignature_at pad suf 8 (by norm_num)
  unfold FindAllFBPTRecords
  rw [FindAllFull_eq_scan _ _ _ _ hv]
  have hzero : tableBodyLen 8 = 0 := by unfold tableBodyLen; omega
  cases hk : (pad ++ (fbptSigBytes ++ (toLEBytes 4 8 ++ suf))).length + 6 with
  | zero => omega
  | succ k =>
    simp only [scanLoop]
    rw [if_neg (by omega)]
    rfl


/-- C7: signature validation.  If the 4 bytes at the table base differ
from the ASCII literal FBPT, validation fails with an error carrying the
actual 4 bytes observed and the scan returns zero records and a nil
slice; if they equal FBPT, validation succeeds and returns the next 4
bytes read as a little-endian 32-bit length, with the cursor advanced 8
bytes past the base. -/
theorem fbpt_C7 (data : List Nat) (addr : Nat) :
    (addr + 4 ≤ data.length → (data.drop addr).take 4 ≠ fbptSigBytes →
      verifyFBPTSignature ⟨data, 0⟩ addr =
          .error (.signatureMismatch ((data.drop addr).take 4)) ∧
        FindAllFBPTRecords data addr =
          ⟨0, none, some (.signatureMismatch ((data.drop addr).take 4))⟩) ∧
    (addr + 8 ≤ data.length → (data.drop addr).take 4 = fbptSigBytes →
      verifyFBPTSignature ⟨data, 0⟩ addr =
        .ok (leNat ((data.drop (addr + 4)).take 4), ⟨data, addr + 8⟩)) := by
  constructor
  · intro hlen hne
    have hv : verifyFBPTSignature ⟨data, 0⟩ addr =
        .error (.signatureMismatch ((data.drop addr).take 4)) := by
      unfold verifyFBPTSignature
      dsimp only
      rw [readFull_ok ⟨data, addr⟩ 4 (by dsimp only; omega)]
      dsimp only
      rw [if_neg hne]
    refine ⟨hv, ?_⟩
    unfold FindAllFBPTRecords
    rw [FindAllFull_eq_err data addr _ hv]
  · intro hlen heq
    unfold verifyFBPTSignature
    dsimp only
    rw [readFull_ok ⟨data, addr⟩ 4 (by dsimp only; omega)]
    dsimp only
    rw [if_pos heq]
    rw [readFull_ok ⟨data, addr + 4⟩ 4 (by dsimp only; omega)]

/-- C7 witness: a source starting with XXXX produces the mismatch error
carrying those bytes and zero records; a source starting with FBPT
followed by the little-endian length 9 verifies to length 9. -/
theorem fbpt_C7_witness :
    (verifyFBPTSignature ⟨[88, 88, 88, 88], 0⟩ 0 =
        .error (.signatureMismatch [88, 88, 88, 88]) ∧
      FindAllFBPTRecords [88, 88, 88, 88] 0 =
        ⟨0, none, some (.signatureMismatch [88, 88, 88, 88])⟩) ∧
    verifyFBPTSignature ⟨[70, 66, 80, 84, 9, 0, 0, 0], 0⟩ 0 =
      .ok (9, ⟨[70, 66, 80, 84, 9, 0, 0, 0], 8⟩) := by
  constructor
  · exact (fbpt_C7 [88, 88, 88, 88] 0).1 (by decide) (by decide)
  · exact (fbpt_C7 [70, 66, 80, 84, 9, 0, 0, 0] 0).2 (by decide) (by decide)

/-- C8: the hook-type code-to-label mapping is total and non-failing —
every code in the closed static table decodes to its fixed name (in
particular 0x01 to MODULE_START_ID), and every code absent from the
table, such as 0xFF, decodes to the empty label without any error. -/
theorem fbpt_C8 :
    (∀ p ∈ eventTypeAList, eventTypeMap p.1 = p.2) ∧
    eventTypeMap 0x01 = "MODULE_START_ID" ∧ eventTypeMap 0xFF = "" ∧
    (∀ c : Nat, c ∉ eventTypeAList.map Prod.fst → eventTypeMap c = "") := by
  refine ⟨by decide, by decide, by decide, ?_⟩
  intro c hc
  unfold eventTypeMap
  rw [lookup_none_of_not_mem_keys eventTypeAList c hc]
  rfl

/-- C8 witness: code 0x05 decodes to MODULE_DB_START_ID and the unmapped
code 0x99 decodes to the empty label. -/
theorem fbpt_C8_witness :
    eventTypeMap 0x05 = "MODULE_DB_START_ID" ∧ eventTypeMap 0x99 = "" :=
  ⟨fbpt_C8.1 (0x05, "MODULE_DB_START_ID") (by decide), fbpt_C8.2.2.2 0x99 (by decide)⟩

/-- C3 counterexample: a table with a dynamic-string record declaring
length 4 (< 34).  The claim says the scan stops with a structural error;
instead the scan succeeds with no error, decoding one record whose
description is 226 bytes long — the uint8 subtraction 4 - 34 wrapped to
226. -/
theorem fbpt_C3_counterexample :
    (FindAllFBPTRecords c3Data 0).error = none ∧
    (FindAllFBPTRecords c3Data 0).count = 1 ∧
    (((FindAllFBPTRecords c3Data 0).records.getD []).headD
        zeroMeasurementRecord).Description.length = 226 := by
  refine ⟨by decide, by decide, by decide⟩

/-- C3 amended: there is no structural-length validation.  For a
dynamic-string record declaring any length below 34, the uint8 length
arithmetic wraps modulo 256: the decoder reads len + 222 description
bytes and succeeds whenever the source holds that many bytes, rather
than stopping with an error. -/
theorem fbpt_C3_amended (s : ByteStream) (len : Nat) (hlen : len < 34)
    (hdata : s.pos + 30 + (len + 222) ≤ s.data.length) :
    ∃ rec : MEASUREMENT_RECORD, ∃ s2 : ByteStream,
      readFirmwarePerformanceDataTableDynamicRecord s len = .ok (rec, s2) ∧
      rec.Description.length = len + 222 ∧ s2.pos = s.pos + 30 + (len + 222) := by
  unfold readFirmwarePerformanceDataTableDynamicRecord
  rw [show (len + 222) % 256 = len + 222 from by omega]
  rw [readFull_ok s 2 (by omega)]
  dsimp only
  rw [readFull_ok ⟨s.data, s.pos + 2⟩ 4 (by dsimp only; omega)]
  dsimp only
  rw [readFull_ok ⟨s.data, s.pos + 2 + 4⟩ 8 (by dsimp only; omega)]
  dsimp only
  rw [readFull_ok ⟨s.data, s.pos + 2 + 4 + 8⟩ 16 (by dsimp only; omega)]
  dsimp only
  rw [readFull_ok ⟨s.data, s.pos + 2 + 4 + 8 + 16⟩ (len + 222) (by dsimp only; omega)]
  dsimp only
  refine ⟨_, _, rfl, ?_, ?_⟩
  · simp [List.length_take, List.length_drop]
    omega
  · dsimp only

/-- C3 witness: decoding a record of declared length 4 over a 256-byte
source succeeds with a 226-byte description. -/
theorem fbpt_C3_witness :
    ∃ rec : MEASUREMENT_RECORD, ∃ s2 : ByteStream,
      readFirmwarePerformanceDataTableDynamicRecord ⟨List.replicate 256 0, 0⟩ 4 =
        .ok (rec, s2) ∧
      rec.Description.length = 226 ∧ s2.pos = 256 :=
  fbpt_C3_amended ⟨List.replicate 256 0, 0⟩ 4 (by decide) (by decide)

/-- C6: the scan loop terminates with bounded work on every byte source
and table content.  Formally: the fuel-indexed embedding of
FindAllFBPTRecords is stable for every fuel of at least data.length + 6
(so the canonical fuel is enough for any content), and the result of
FindAllFBPTRecords never carries the fuel-exhaustion marker — it always
ends normally (both bounds checked) or with a read error. -/
theorem fbpt_C6 :
    (∀ (data : List Nat) (addr fuel : Nat), data.length + 6 ≤ fuel →
      FindAllFBPTRecordsFullFuel data addr fuel = FindAllFBPTRecordsFull data addr) ∧
    (∀ (data : List Nat) (addr : Nat),
      (FindAllFBPTRecords data addr).error ≠ some .fuelExhausted) := by
  constructor
  · intro data addr fuel hfuel
    cases hv : verifyFBPTSignature ⟨data, 0⟩ addr with
    | error e =>
      unfold FindAllFBPTRecordsFull FindAllFBPTRecordsFullFuel
      rw [hv]
    | ok pr =>
      obtain ⟨tl, s⟩ := pr
      obtain ⟨hd, hp⟩ := verifyFBPTSignature_inv _ _ _ _ hv
      dsimp only at hd
      unfold FindAllFBPTRecordsFull FindAllFBPTRecordsFullFuel
      rw [hv]
      apply scanLoop_fuel_stable
      · unfold loopFuelBound
        rw [hd]
        omega
      · unfold loopFuelBound
        rw [hd]
        omega
  · intro data addr
    cases hv : verifyFBPTSignature ⟨data, 0⟩ addr with
    | error e =>
      unfold FindAllFBPTRecords
      rw [FindAllFull_eq_err data addr e hv]
      have := verifyFBPTSignature_err_not_fuel _ _ _ hv
      simpa using this
    | ok pr =>
      obtain ⟨tl, s⟩ := pr
      obtain ⟨hd, hp⟩ := verifyFBPTSignature_inv _ _ _ _ hv
      dsimp only at hd
      unfold FindAllFBPTRecords
      rw [FindAllFull_eq_scan data addr tl s hv]
      apply scanLoop_no_fuel_exhausted
      unfold loopFuelBound
      rw [hd]
      omega

/-- C6 witness: on a concrete 8-byte table the scan result is the same
at fuel 100 as at the canonical fuel. -/
theorem fbpt_C6_witness :
    FindAllFBPTRecordsFullFuel [70, 66, 80, 84, 8, 0, 0, 0] 0 100 =
      FindAllFBPTRecordsFull [70, 66, 80, 84, 8, 0, 0, 0] 0 :=
  fbpt_C6.1 [70, 66, 80, 84, 8, 0, 0, 0] 0 100 (by decide)

/-- C10: on every successful scan the returned record slice has length
exactly 2000 (maxNumberOfFBPTPerfRecords) regardless of how many records
were decoded, the returned count is at most 2000, and every slice entry
at a position at or beyond the count is the zero-valued
MEASUREMENT_RECORD. -/
theorem fbpt_C10 (data : List Nat) (addr : Nat) (c : Nat) (l : List MEASUREMENT_RECORD)
    (h : FindAllFBPTRecords data addr = ⟨c, some l, none⟩) :
    l.length = 2000 ∧ c ≤ 2000 ∧
      l.drop c = List.replicate (2000 - c) zeroMeasurementRecord := by
  cases hv : verifyFBPTSignature ⟨data, 0⟩ addr with
  | error e =>
    unfold FindAllFBPTRecords at h
    rw [FindAllFull_eq_err data addr e hv] at h
    simp at h
  | ok pr =>
    obtain ⟨tl, s⟩ := pr
    unfold FindAllFBPTRecords at h
    rw [FindAllFull_eq_scan data addr tl s hv] at h
    have hshape := scanLoop_records_shape tl (data.length + 6) s 0 0
      (List.replicate maxNumberOfFBPTPerfRecords zeroMeasurementRecord)
      (by simp) (by simp) (by simp) c l h
    simpa [maxNumberOfFBPTPerfRecords] using ⟨hshape.1, hshape.2.2.1, hshape.2.2.2⟩

/-- C10 witness: the scan of a minimal valid table (length 8, no records)
returns count 0 with a slice of 2000 zero records. -/
theorem fbpt_C10_witness :
    List.length (List.replicate 2000 zeroMeasurementRecord) = 2000 ∧ (0 : Nat) ≤ 2000 ∧
      (List.replicate 2000 zeroMeasurementRecord).drop 0 =
        List.replicate (2000 - 0) zeroMeasurementRecord :=
  fbpt_C10 [70, 66, 80, 84, 8, 0, 0, 0] 0 0 (List.replicate 2000 zeroMeasurementRecord) rfl

/-- C9: round-trip.  Encoding a measurement record whose hook-type label
corresponds to a code in the static mapping into the binary
dynamic-string-record layout (2-byte LE hook code, 4-byte LE processor
identifier, 8-byte LE timestamp, 16 GUID bytes, description bytes, with
declared length 34 + description length) and decoding it back reproduces
the identical hook-type label, processor identifier, timestamp, GUID
bytes (hence the same rendered GUID string) and description text. -/
theorem fbpt_C9 (hook procId ts : Nat) (label : String) (guid descr pre rest : List Nat)
    (hmem : (hook, label) ∈ eventTypeAList)
    (hp : procId < 2 ^ 32) (ht : ts < 2 ^ 64)
    (hg : guid.length = 16) (hd : descr.length ≤ 221) :
    readFirmwarePerformanceDataTableDynamicRecord
        ⟨pre ++ (encodeDynamicStringRecordBody hook procId ts guid descr ++ rest),
         pre.length⟩ (34 + descr.length) =
      .ok (⟨label, procId, ts, guid, descr⟩,
           ⟨pre ++ (encodeDynamicStringRecordBody hook procId ts guid descr ++ rest),
            pre.length + (30 + descr.length)⟩) ∧
    mixedGUIDString (MEASUREMENT_RECORD.GUID ⟨label, procId, ts, guid, descr⟩) =
      mixedGUIDString guid := by
  have hh : hook < 2 ^ 16 := by
    have hkey : ∀ p ∈ eventTypeAList, p.1 < 2 ^ 16 := by decide
    exact hkey (hook, label) hmem
  have hlabel : eventTypeMap hook = label := by
    unfold eventTypeMap
    rw [lookup_eq_of_mem eventTypeAList hook label (by decide) hmem]
    rfl
  refine ⟨?_, rfl⟩
  have hD : pre ++ (encodeDynamicStringRecordBody hook procId ts guid descr ++ rest) =
      pre ++ (toLEBytes 2 hook ++ (toLEBytes 4 procId ++ (toLEBytes 8 ts ++
        (guid ++ (descr ++ rest))))) := by
    simp [encodeDynamicStringRecordBody, List.append_assoc]
  rw [hD]
  have h := readDyn_at pre (toLEBytes 2 hook) (toLEBytes 4 procId) (toLEBytes 8 ts)
    guid descr rest (34 + descr.length)
    (toLEBytes_length 2 hook) (toLEBytes_length 4 procId) (toLEBytes_length 8 ts)
    hg (by omega)
  rw [h, leNat_toLEBytes2 hook hh, leNat_toLEBytes4 procId hp,
    leNat_toLEBytes8 ts ht, hlabel]

/-- C9 witness: a concrete record (hook 0x01, processor 7, timestamp 9,
constant GUID, two-byte description) round-trips to identical fields. -/
theorem fbpt_C9_witness :
    readFirmwarePerformanceDataTableDynamicRecord
        ⟨encodeDynamicStringRecordBody 1 7 9 (List.replicate 16 3) [104, 105] ++ [], 0⟩ 36 =
      .ok (⟨"MODULE_START_ID", 7, 9, List.replicate 16 3, [104, 105]⟩,
           ⟨encodeDynamicStringRecordBody 1 7 9 (List.replicate 16 3) [104, 105] ++ [], 32⟩) ∧
    mixedGUIDString (MEASUREMENT_RECORD.GUID
        ⟨"MODULE_START_ID", 7, 9, List.replicate 16 3, [104, 105]⟩) =
      mixedGUIDString (List.replicate 16 3) :=
  fbpt_C9 1 7 9 "MODULE_START_ID" (List.replicate 16 3) [104, 105] [] []
    (by decide) (by decide) (by decide) (by decide) (by decide)

theorem dynCount_replicate (n : Nat) (h p t : Nat) (g d : List Nat) :
    dynCount (List.replicate n (RecSpec.dyn h p t g d)) = n := by
  induction n with
  | zero => rfl
  | succ k ih => simp [List.replicate_succ, dynCount, ih]

theorem sumLens_replicate (n : Nat) (r : RecSpec) :
    sumLens (List.replicate n r) = n * r.len := by
  induction n with
  | zero => simp [sumLens]
  | succ k ih =>
    simp [List.replicate_succ, sumLens, ih]
    ring

/-- C2 counterexample: a well-formed table of 2001 dynamic-string records
whose declared lengths sum exactly to tableLength - 8.  The scanner
returns 2000 records, not the 2001 the claim promises for every such
table, because of the decode cap. -/
theorem fbpt_C2_counterexample :
    dynCount c2Specs = 2001 ∧
    FindAllFBPTRecords c2Data 0 =
      ⟨2000, some (setFrom (List.replicate 2000 zeroMeasurementRecord) 0
        ((dynRecs c2Specs).take 2000)), none⟩ := by
  have hwf : ∀ r ∈ c2Specs, r.WF := by
    intro r hr
    rw [List.eq_of_mem_replicate hr]
    decide
  have h := FindAll_wf_cap c2Specs [] [] hwf
    (by unfold c2Specs; rw [dynCount_replicate]; decide)
    (by unfold c2Specs; rw [sumLens_replicate]; decide)
  constructor
  · unfold c2Specs
    rw [dynCount_replicate]
  · have e : ([] : List Nat) ++ (fbptSigBytes ++ (toLEBytes 4 (8 + sumLens c2Specs) ++
        (encodeRecs c2Specs ++ []))) = c2Data := by
      rw [List.nil_append, List.append_nil]
      rfl
    rw [e, show List.length ([] : List Nat) = 0 from rfl] at h
    exact h

/-- C2 amended: for every well-formed synthetic table of N dynamic-string
records interleaved with records of other types, all declared lengths
valid and summing exactly to tableLength - 8, and N below the 2000-record
decode cap, the scanner succeeds with exactly N records written in table
order into the result slice, and the loop's cumulative byte counter ends
at exactly tableLength - 8. -/
theorem fbpt_C2_amended (specs : List RecSpec) (pad suf : List Nat)
    (hwf : ∀ r ∈ specs, r.WF) (hcap : dynCount specs < 2000)
    (hlt : 8 + sumLens specs < 2 ^ 32) :
    FindAllFBPTRecords
        (pad ++ (fbptSigBytes ++ (toLEBytes 4 (8 + sumLens specs) ++
          (encodeRecs specs ++ suf)))) pad.length =
      ⟨dynCount specs,
       some (setFrom (List.replicate 2000 zeroMeasurementRecord) 0 (dynRecs specs)),
       none⟩ ∧
    (FindAllFBPTRecordsFull
        (pad ++ (fbptSigBytes ++ (toLEBytes 4 (8 + sumLens specs) ++
          (encodeRecs specs ++ suf)))) pad.length).bytesRead = sumLens specs := by
  have h := FindAllFull_wf_ok specs pad suf hwf
    (by simpa [maxNumberOfFBPTPerfRecords] using hcap) hlt
  constructor
  · unfold FindAllFBPTRecords
    rw [h]
    rfl
  · rw [h]

/-- C2 witness: a concrete table holding one dynamic-string record and
one skipped record of another type decodes to exactly that one record and
consumes the whole table body. -/
theorem fbpt_C2_witness :
    FindAllFBPTRecords
        (([] : List Nat) ++ (fbptSigBytes ++ (toLEBytes 4 (8 + sumLens w2Specs) ++
          (encodeRecs w2Specs ++ [])))) (List.length ([] : List Nat)) =
      ⟨dynCount w2Specs,
       some (setFrom (List.replicate 2000 zeroMeasurementRecord) 0 (dynRecs w2Specs)),
       none⟩ ∧
    (FindAllFBPTRecordsFull
        (([] : List Nat) ++ (fbptSigBytes ++ (toLEBytes 4 (8 + sumLens w2Specs) ++
          (encodeRecs w2Specs ++ [])))) (List.length ([] : List Nat))).bytesRead =
      sumLens w2Specs :=
  fbpt_C2_amended w2Specs [] [] (by decide) (by decide) (by decide)

/-- C4: for every well-formed table containing 2001 or more
dynamic-string records, the scan decodes exactly 2000 records (the first
2000 in table order) and returns with no error — reaching the cap is not
reported as a failure. -/
theorem fbpt_C4 (specs : List RecSpec) (pad suf : List Nat)
    (hwf : ∀ r ∈ specs, r.WF) (hge : 2001 ≤ dynCount specs)
    (hlt : 8 + sumLens specs < 2 ^ 32) :
    FindAllFBPTRecords
        (pad ++ (fbptSigBytes ++ (toLEBytes 4 (8 + sumLens specs) ++
          (encodeRecs specs ++ suf)))) pad.length =
      ⟨2000, some (setFrom (List.replicate 2000 zeroMeasurementRecord) 0
        ((dynRecs specs).take 2000)), none⟩ := by
  have h := FindAll_wf_cap specs pad suf hwf
    (by simp [maxNumberOfFBPTPerfRecords]; omega) hlt
  exact h

/-- C4 witness: a concrete table of 2001 minimal dynamic-string records
yields exactly 2000 decoded records and a nil error. -/
theorem fbpt_C4_witness :
    FindAllFBPTRecords
        (([] : List Nat) ++ (fbptSigBytes ++ (toLEBytes 4 (8 + sumLens c4Specs) ++
          (encodeRecs c4Specs ++ [])))) (List.length ([] : List Nat)) =
      ⟨2000, some (setFrom (List.replicate 2000 zeroMeasurementRecord) 0
        ((dynRecs c4Specs).take 2000)), none⟩ :=
  fbpt_C4 c4Specs [] []
    (by intro r hr; rw [List.eq_of_mem_replicate hr]; decide)
    (by unfold c4Specs; rw [dynCount_replicate])
    (by unfold c4Specs; rw [sumLens_replicate]; decide)

end Fbpt
